import Mathlib

/-!
Verification development for the `idz` identity-disk embedding store.

The definitions below are a shallow embedding of the Rust sources
`src/lib.rs`, `src/models.rs` and `src/errors.rs`:

* SQLite tables become Lean lists of row structures (`Db`); SQL statements
  become the corresponding list operations.
* `f32` values are represented by their IEEE-754 bit patterns, as natural
  numbers below 2^32.  The byte codec (`to_le_bytes` / `from_le_bytes`)
  only moves bit patterns around, so no floating-point arithmetic is needed.
* The external `hnsw_rs` graph is modelled by the log of its `insert`
  calls: a list of (dense id, vector) pairs.  The approximate search
  traversal itself is abstracted as a function argument where it occurs.
* `serde_json::Value` is modelled by the inductive `Json` below, with a
  compact serializer and a parser for the fragment the library exercises
  (integer numerals; no fractional or exponent forms).
* Fallible Rust functions returning `Result<T, DiskError>` become
  `Except DiskError T`; methods that mutate `self` additionally return the
  successor state, because `add_chunk` commits rows even on some errors.
-/

namespace Idz

/-! ### String helpers

Rust `str::ends_with` / `str::contains` and the SQLite `ORDER BY chunk_id`
comparison (BINARY collation, i.e. byte-wise comparison of the UTF-8
encoding, which coincides with code-point lexicographic order).  The core
`String` order is defined by well-founded recursion and does not reduce in
the kernel, so we use our own structural definitions over `String.data`. -/

def strEndsWith (s pat : String) : Bool :=
  pat.data.isSuffixOf s.data

def strContains (s : String) (c : Char) : Bool :=
  s.data.contains c

def charListLe : List Char → List Char → Bool
  | [], _ => true
  | _ :: _, [] => false
  | a :: as, b :: bs =>
    if a.toNat < b.toNat then true
    else if b.toNat < a.toNat then false
    else charListLe as bs

/-- Byte-wise (SQLite BINARY collation) comparison of two TEXT values. -/
def strLe (a b : String) : Bool := charListLe a.data b.data

/-! ### JSON (`serde_json::Value`)

Modelled fragment: numbers are restricted to (signed) integer numerals;
string escapes cover the forms `serde_json` emits.  This is sufficient for
every JSON value the verified code paths manipulate. -/

inductive Json where
  | null : Json
  | bool (b : Bool) : Json
  | num (n : Int) : Json
  | str (s : String) : Json
  | arr (xs : List Json) : Json
  | obj (kvs : List (String × Json)) : Json

def lbrace : Char := Char.ofNat 123
def rbrace : Char := Char.ofNat 125

def hexDigitChar (n : Nat) : Char :=
  if n < 10 then Char.ofNat (48 + n) else Char.ofNat (87 + n)

/-- Escaping of one character inside a JSON string, as `serde_json` emits it. -/
def escapeChar (c : Char) : List Char :=
  if c = '"' then ['\\', '"']
  else if c = '\\' then ['\\', '\\']
  else if c = Char.ofNat 8 then ['\\', 'b']
  else if c = Char.ofNat 12 then ['\\', 'f']
  else if c = '\n' then ['\\', 'n']
  else if c = '\r' then ['\\', 'r']
  else if c = '\t' then ['\\', 't']
  else if c.toNat < 32 then
    ['\\', 'u', '0', '0', hexDigitChar (c.toNat / 16), hexDigitChar (c.toNat % 16)]
  else [c]

def renderString (s : String) : String :=
  String.mk ('"' :: s.data.flatMap escapeChar ++ ['"'])

mutual

/-- Compact serialization, as `serde_json::Value::to_string` produces it. -/
def Json.render : Json → String
  | .null => "null"
  | .bool true => "true"
  | .bool false => "false"
  | .num n => toString n
  | .str s => renderString s
  | .arr xs => "[" ++ Json.renderElems xs ++ "]"
  | .obj kvs => String.mk [lbrace] ++ Json.renderMembers kvs ++ String.mk [rbrace]

def Json.renderElems : List Json → String
  | [] => ""
  | [x] => Json.render x
  | x :: y :: xs => Json.render x ++ "," ++ Json.renderElems (y :: xs)

def Json.renderMembers : List (String × Json) → String
  | [] => ""
  | [(k, v)] => renderString k ++ ":" ++ Json.render v
  | (k, v) :: m :: ms => renderString k ++ ":" ++ Json.render v ++ "," ++ Json.renderMembers (m :: ms)

end

def isWsChar (c : Char) : Bool :=
  c = ' ' || c = '\t' || c = '\n' || c = '\r'

def skipWs : List Char → List Char
  | [] => []
  | c :: cs => if isWsChar c then skipWs cs else c :: cs

def isDigitChar (c : Char) : Bool :=
  48 ≤ c.toNat && c.toNat ≤ 57

def takeDigits : List Char → List Char × List Char
  | [] => ([], [])
  | c :: cs =>
    if isDigitChar c then
      let (ds, rest) := takeDigits cs
      (c :: ds, rest)
    else ([], c :: cs)

def digitsToNat (ds : List Char) : Nat :=
  ds.foldl (fun acc c => 10 * acc + (c.toNat - 48)) 0

def hexVal (c : Char) : Option Nat :=
  if 48 ≤ c.toNat ∧ c.toNat ≤ 57 then some (c.toNat - 48)
  else if 97 ≤ c.toNat ∧ c.toNat ≤ 102 then some (c.toNat - 87)
  else if 65 ≤ c.toNat ∧ c.toNat ≤ 70 then some (c.toNat - 55)
  else none

/-- Body of a JSON string literal, after the opening quote.  Returns the
decoded characters and the remaining input after the closing quote. -/
def parseStringChars : List Char → Option (List Char × List Char)
  | [] => none
  | c :: cs =>
    if c = '"' then some ([], cs)
    else if c = '\\' then
      match cs with
      | [] => none
      | e :: cs2 =>
        if e = 'u' then
          match cs2 with
          | h1 :: h2 :: h3 :: h4 :: cs3 =>
            match hexVal h1, hexVal h2, hexVal h3, hexVal h4 with
            | some a, some b, some c', some d =>
              (parseStringChars cs3).map fun (s, r) =>
                (Char.ofNat (4096 * a + 256 * b + 16 * c' + d) :: s, r)
            | _, _, _, _ => none
          | _ => none
        else
          let ec : Option Char :=
            if e = '"' then some '"'
            else if e = '\\' then some '\\'
            else if e = '/' then some '/'
            else if e = 'b' then some (Char.ofNat 8)
            else if e = 'f' then some (Char.ofNat 12)
            else if e = 'n' then some '\n'
            else if e = 'r' then some '\r'
            else if e = 't' then some '\t'
            else none
          match ec with
          | some ch => (parseStringChars cs2).map fun (s, r) => (ch :: s, r)
          | none => none
    else (parseStringChars cs).map fun (s, r) => (c :: s, r)

mutual

/-- Recursive-descent JSON parser (fuelled).  Models `serde_json::from_str`
on the fragment described above. -/
def parseValue : Nat → List Char → Option (Json × List Char)
  | 0, _ => none
  | fuel + 1, input =>
    match skipWs input with
    | [] => none
    | c :: rest =>
      if c = 'n' then
        match rest with
        | 'u' :: 'l' :: 'l' :: r => some (Json.null, r)
        | _ => none
      else if c = 't' then
        match rest with
        | 'r' :: 'u' :: 'e' :: r => some (Json.bool true, r)
        | _ => none
      else if c = 'f' then
        match rest with
        | 'a' :: 'l' :: 's' :: 'e' :: r => some (Json.bool false, r)
        | _ => none
      else if c = '"' then
        (parseStringChars rest).map fun (s, r) => (Json.str (String.mk s), r)
      else if c = '[' then
        match skipWs rest with
        | ']' :: r => some (Json.arr [], r)
        | other => (parseElems fuel other).map fun (xs, r) => (Json.arr xs, r)
      else if c = lbrace then
        match skipWs rest with
        | d :: r => if d = rbrace then some (Json.obj [], r)
                    else (parseMembers fuel (d :: r)).map fun (kvs, r') => (Json.obj kvs, r')
        | [] => none
      else if c = '-' then
        match takeDigits rest with
        | ([], _) => none
        | (ds, r) => some (Json.num (-(digitsToNat ds : Int)), r)
      else if isDigitChar c then
        match takeDigits (c :: rest) with
        | ([], _) => none
        | (ds, r) => some (Json.num (digitsToNat ds : Int), r)
      else none

/-- One or more comma-separated array elements, then the closing bracket. -/
def parseElems : Nat → List Char → Option (List Json × List Char)
  | 0, _ => none
  | fuel + 1, input => do
    let (v, r) ← parseValue fuel input
    match skipWs r with
    | ',' :: r2 => (parseElems fuel r2).map fun (xs, r3) => (v :: xs, r3)
    | ']' :: r2 => some ([v], r2)
    | _ => none

/-- One or more comma-separated object members, then the closing brace. -/
def parseMembers : Nat → List Char → Option (List (String × Json) × List Char)
  | 0, _ => none
  | fuel + 1, input =>
    match skipWs input with
    | '"' :: r => do
      let (k, r2) ← parseStringChars r
      match skipWs r2 with
      | ':' :: r3 => do
        let (v, r4) ← parseValue fuel r3
        match skipWs r4 with
        | ',' :: r5 => (parseMembers fuel r5).map fun (kvs, r6) => ((String.mk k, v) :: kvs, r6)
        | d :: r5 => if d = rbrace then some ([(String.mk k, v)], r5) else none
        | [] => none
      | _ => none
    | _ => none

end

/-- Top-level entry point of the modelled `serde_json::from_str`. -/
def Json.parse (s : String) : Option Json :=
  match parseValue (s.data.length + 1) s.data with
  | some (v, rest) => if (skipWs rest).isEmpty then some v else none
  | none => none

/-! ### Vector codec

An `f32` value is represented by its IEEE-754 bit pattern, a natural number
below 2^32.  `f32::to_le_bytes` / `f32::from_le_bytes` transport exactly
that bit pattern, so the codec is pure byte shuffling. -/

/-- The four little-endian bytes of one `f32` bit pattern
(`f32::to_le_bytes`). -/
def f32ToLeBytes (bits : Nat) : List Nat :=
  [bits % 256, bits / 256 % 256, bits / 65536 % 256, bits / 16777216 % 256]

/-- Encoding used by `add_chunk`:
`v.iter().flat_map(|f| f.to_le_bytes()).collect()`. -/
def encodeF32 (v : List Nat) : List Nat :=
  v.flatMap f32ToLeBytes

/-- Rust `slice::chunks_exact(4)`: 4-byte windows in order, remainder
dropped. -/
def chunksExact4 : List Nat → List (Nat × Nat × Nat × Nat)
  | b0 :: b1 :: b2 :: b3 :: rest => (b0, b1, b2, b3) :: chunksExact4 rest
  | _ => []

/-- Reassembling one bit pattern from its little-endian bytes
(`f32::from_le_bytes`). -/
def f32FromLeBytes : Nat × Nat × Nat × Nat → Nat
  | (b0, b1, b2, b3) => b0 + 256 * b1 + 65536 * b2 + 16777216 * b3

/-- Decoding used by the index loader:
`blob.chunks_exact(4).map(f32::from_le_bytes).collect()`. -/
def decodeF32 (blob : List Nat) : List Nat :=
  (chunksExact4 blob).map f32FromLeBytes

/-! ### Persistent schema (`CREATE_DB_SQL`) -/

/-- One row of the `chunks` table; `metadata` is the stored JSON text. -/
structure ChunkRow where
  chunk_id : String
  content : String
  metadata : String
deriving DecidableEq, Repr

/-- One row of the `indices` table.  The autoincrement `index_id` is the
position in the list; `data` is the blob as a byte list. -/
structure IndexRecord where
  chunk_id : String
  index_type : String
  model_signature : String
  data : List Nat
deriving DecidableEq, Repr

/-- The SQLite database: `manifest`, `chunks` and `indices` tables.  Rows
are kept in rowid (insertion) order, which is the storage order seen by
unordered SELECTs, since nothing in scope deletes rows. -/
structure Db where
  manifest : List (String × String)
  chunks : List ChunkRow
  indices : List IndexRecord
deriving DecidableEq, Repr

/-- The schema script plus the manifest row inserted by `CREATE_DB_SQL`. -/
def freshDb : Db :=
  { manifest := [("spec_version", "1.0")], chunks := [], indices := [] }

/-! ### Public data models (`models.rs`) -/

/-- Public chunk value (`models::Chunk`); `metadata` is parsed JSON. -/
structure Chunk where
  chunk_id : String
  content : String
  metadata : Json

/-- Conversion of a `chunks` row into a public `Chunk`
(`Chunk::try_from(&Row)`): a malformed metadata value is replaced by the
empty JSON object rather than failing. -/
def Chunk.ofRow (r : ChunkRow) : Chunk :=
  { chunk_id := r.chunk_id
    content := r.content
    metadata := (Json.parse r.metadata).getD (Json.obj []) }

/-- Query vector (`models::QueryVector`); only the `F32` variant is
implemented.  The payload lists the bit patterns of the `f32` components. -/
inductive QueryVector where
  | F32 (v : List Nat) : QueryVector

/-- One neighbour returned by the `hnsw_rs` traversal: internal dense id
plus a distance, which we carry opaquely as an `f32` bit pattern. -/
structure Neighbour where
  d_id : Nat
  distance : Nat
deriving DecidableEq, Repr

/-- Public search result (`models::SearchResult`). -/
structure SearchResult where
  chunk : Chunk
  distance : Nat

/-! ### Errors (`errors.rs`): the `DiskError` enum.  Payloads are carried
as rendered strings. -/

inductive DiskError where
  | Rusqlite (msg : String) : DiskError
  | Io (msg : String) : DiskError
  | Json (msg : String) : DiskError
  | RwLockRead (msg : String) : DiskError
  | RwLockWrite (msg : String) : DiskError
  | InvalidData (msg : String) : DiskError
  | NotFound (id : String) : DiskError
  | Hnsw (msg : String) : DiskError
deriving DecidableEq, Repr

/-! ### The in-memory search index -/

/-- Type-erased index (`SearchIndex` in `lib.rs`).  The `F32` payload
models the `Hnsw<f32, DistCosine>` graph by the log of its `insert` calls:
pairs of (internal dense id, vector of `f32` bit patterns). -/
inductive SearchIndex where
  | F32 (entries : List (Nat × List Nat)) : SearchIndex
  | none : SearchIndex
deriving DecidableEq, Repr

/-- The entries held by the ANN graph; the disabled variant holds none. -/
def SearchIndex.graphEntries : SearchIndex → List (Nat × List Nat)
  | .F32 entries => entries
  | .none => []

/-- Type of the external `hnsw_rs` k-nearest-neighbour traversal
(`Hnsw::search`), abstracted: graph entries, query, `top_k` and the fixed
internal search breadth (`ef = 100`) in, neighbour list out. -/
def HnswSearchFn : Type :=
  List (Nat × List Nat) → List Nat → Nat → Nat → List Neighbour

/-! ### The `IdentityDisk` facade (`lib.rs`) -/

structure IdentityDisk where
  db : Db
  index : SearchIndex
  id_to_chunk_id : List String
  model_signature : String

/-- Comparison used by `ORDER BY chunk_id`: byte-wise order of the ids. -/
def chunkIdLe (a b : IndexRecord) : Prop :=
  strLe a.chunk_id b.chunk_id = true

instance : DecidableRel chunkIdLe := fun a b =>
  inferInstanceAs (Decidable (strLe a.chunk_id b.chunk_id = true))

/-- The `SELECT chunk_id, data FROM indices WHERE model_signature = ?1
ORDER BY chunk_id` result set: rows of the bound signature in byte-wise
(BINARY collation) order of `chunk_id`.  Insertion sort is stable, matching
a deterministic ORDER BY. -/
def indicesForSignature (db : Db) (modelSignature : String) : List IndexRecord :=
  List.insertionSort chunkIdLe
    (db.indices.filter (fun r => r.model_signature == modelSignature))

/-- `IdentityDisk::load_index_from_db`: scan the matching records in
`chunk_id` order; with no rows the index is `None`; with rows, dispatch on
the signature: the fp32 family (suffix `_fp32`, or no `_` at all) builds
the graph by inserting the decoded vector of row `i` at dense id `i`;
any other encoding leaves the index disabled (`None`). -/
def load_index_from_db (db : Db) (modelSignature : String) :
    SearchIndex × List String :=
  let rows := indicesForSignature db modelSignature
  let id_map := rows.map (fun r => r.chunk_id)
  let data_blobs := rows.map (fun r => r.data)
  if id_map.isEmpty then (SearchIndex.none, [])
  else if strEndsWith modelSignature "_fp32" || !(strContains modelSignature '_') then
    (SearchIndex.F32 (data_blobs.map decodeF32).enum, id_map)
  else
    (SearchIndex.none, id_map)

/-- `IdentityDisk::create`: fresh schema, manifest row, then the index is
built from the (empty) database.  `id_to_chunk_id` is set to a fresh empty
vector, discarding the loader's second component. -/
def IdentityDisk.create (modelSignature : String) : IdentityDisk :=
  { db := freshDb
    index := (load_index_from_db freshDb modelSignature).1
    id_to_chunk_id := []
    model_signature := modelSignature }

/-- `IdentityDisk::open` on a database with the given persisted content. -/
def IdentityDisk.openDisk (db : Db) (modelSignature : String) : IdentityDisk :=
  { db := db
    index := (load_index_from_db db modelSignature).1
    id_to_chunk_id := (load_index_from_db db modelSignature).2
    model_signature := modelSignature }

/-- The stored metadata text:
`metadata.map_or("\x7b\x7d".to_string(), |j| j.to_string())`. -/
def metadataString : Option Json → String
  | Option.none => "\x7b\x7d"
  | Option.some j => j.render

/-- `IdentityDisk::add_chunk`.  The generated UUID v4 is modelled by the
explicit `chunkId` argument.  Returns the call's outcome together with the
successor state: the transaction commits the two rows before the in-memory
index is touched, so a later failure leaves the rows in the database. -/
def IdentityDisk.add_chunk (d : IdentityDisk) (chunkId : String)
    (content : String) (embedding : QueryVector) (metadata : Option Json) :
    Except DiskError String × IdentityDisk :=
  let metadata_str := metadataString metadata
  match embedding with
  | QueryVector.F32 v =>
    if !(strEndsWith d.model_signature "_fp32") && !(strContains d.model_signature '_') then
      (Except.error (DiskError.InvalidData "Mismatched vector type: expected fp32"), d)
    else
      let embedding_bytes := encodeF32 v
      -- Transaction: the UNIQUE constraints on chunks.chunk_id and on
      -- (indices.chunk_id, indices.model_signature) make either INSERT
      -- fail on a duplicate, in which case the transaction rolls back.
      if d.db.chunks.any (fun r => r.chunk_id == chunkId) then
        (Except.error (DiskError.Rusqlite "UNIQUE constraint failed: chunks.chunk_id"), d)
      else if d.db.indices.any
          (fun r => r.chunk_id == chunkId && r.model_signature == d.model_signature) then
        (Except.error (DiskError.Rusqlite "UNIQUE constraint failed: indices.chunk_id, indices.model_signature"), d)
      else
        let db' : Db :=
          { d.db with
            chunks := d.db.chunks ++ [{ chunk_id := chunkId, content := content, metadata := metadata_str }]
            indices := d.db.indices ++
              [{ chunk_id := chunkId, index_type := "vector_embedding"
                 model_signature := d.model_signature, data := embedding_bytes }] }
        -- Commit happened; now the in-memory index is mutated.
        match d.index with
        | SearchIndex.F32 entries =>
          let new_hnsw_id := d.id_to_chunk_id.length
          (Except.ok chunkId,
           { d with
             db := db'
             index := SearchIndex.F32 (entries ++ [(new_hnsw_id, v)])
             id_to_chunk_id := d.id_to_chunk_id ++ [chunkId] })
        | SearchIndex.none =>
          (Except.error (DiskError.InvalidData "No supported index loaded."), { d with db := db' })

/-- `IdentityDisk::get_chunks`: unordered full scan of `chunks`. -/
def IdentityDisk.get_chunks (d : IdentityDisk) : Except DiskError (List Chunk) :=
  Except.ok (d.db.chunks.map Chunk.ofRow)

/-- Per-neighbour lookup loop of `IdentityDisk::search`: dense id through
`id_to_chunk_id`, then the chunk row by primary key.  The Rust code indexes
the id map with `id_map[neighbor.d_id]`, which panics when out of bounds;
the panic is modelled as an error value (no claim depends on that branch). -/
def lookupResults (db : Db) (id_map : List String) :
    List Neighbour → Except DiskError (List SearchResult)
  | [] => Except.ok []
  | n :: rest =>
    match id_map.get? n.d_id with
    | Option.none => Except.error (DiskError.Hnsw "index out of bounds")
    | Option.some cid =>
      match db.chunks.find? (fun r => r.chunk_id == cid) with
      | Option.none => Except.error (DiskError.Rusqlite "QueryReturnedNoRows")
      | Option.some row =>
        (lookupResults db id_map rest).map
          (fun rs => { chunk := Chunk.ofRow row, distance := n.distance } :: rs)

/-- `IdentityDisk::search`.  On the `F32` index the external traversal
(abstracted as `hnswSearch`) runs with the fixed breadth 100; on the
disabled index the result is an empty list, never an error. -/
def IdentityDisk.search (d : IdentityDisk) (hnswSearch : HnswSearchFn)
    (query_vector : QueryVector) (top_k : Nat) :
    Except DiskError (List SearchResult) :=
  match d.index, query_vector with
  | SearchIndex.F32 entries, QueryVector.F32 q =>
    lookupResults d.db d.id_to_chunk_id (hnswSearch entries q top_k 100)
  | SearchIndex.none, _ => Except.ok []

/-- `IdentityDisk::update_chunk_metadata`: one UPDATE statement; the
affected-row count decides between `Ok` and `NotFound`. -/
def IdentityDisk.update_chunk_metadata (d : IdentityDisk) (chunkId : String)
    (new_metadata : Json) : Except DiskError Unit × IdentityDisk :=
  let metadata_str := new_metadata.render
  let rows_affected := d.db.chunks.countP (fun r => r.chunk_id == chunkId)
  let d' : IdentityDisk :=
    { d with db :=
      { d.db with chunks :=
        d.db.chunks.map (fun r =>
          if r.chunk_id == chunkId then { r with metadata := metadata_str } else r) } }
  (if rows_affected = 0 then Except.error (DiskError.NotFound chunkId) else Except.ok (), d')

/-- `IdentityDisk::get_spec_version`: manifest lookup by key. -/
def IdentityDisk.get_spec_version (d : IdentityDisk) : Except DiskError String :=
  match d.db.manifest.find? (fun kv => kv.1 == "spec_version") with
  | Option.none => Except.error (DiskError.Rusqlite "QueryReturnedNoRows")
  | Option.some kv => Except.ok kv.2

/-- The error value produced when `add_chunk` reaches the in-memory step on
a disabled index.  This is the code's realization of the specification's
"UnsupportedIndex" error kind: `errors.rs` has no dedicated variant, so the
`InvalidData` variant carries a message that distinguishes this case from
the representation-mismatch message. -/
def unsupportedIndexError : DiskError :=
  DiskError.InvalidData "No supported index loaded."

/-- The error value of the representation-mismatch check in `add_chunk`,
the code's realization of the specification's "InvalidInput" kind. -/
def invalidInputError : DiskError :=
  DiskError.InvalidData "Mismatched vector type: expected fp32"

/-! ### Concrete states used by the closed theorems -/

/-- The §8 scenario: a freshly created disk bound to "demo-4_fp32",
then `add_chunk("hello world", [1,0,0,0], some \x7b"a":1\x7d)`.
The vector components are the bit patterns of 1.0f32 and 0.0f32. -/
def scenarioAdd : Except DiskError String × IdentityDisk :=
  (IdentityDisk.create "demo-4_fp32").add_chunk "chunk-0" "hello world"
    (QueryVector.F32 [1065353216, 0, 0, 0])
    (Option.some (Json.obj [("a", Json.num 1)]))

/-- A database holding one chunk and one index record under the
suffix-free signature "demo" (fp32 by default, per the loader). -/
def demoDb : Db :=
  { manifest := [("spec_version", "1.0")]
    chunks := [{ chunk_id := "c0", content := "t", metadata := "\x7b\x7d" }]
    indices := [{ chunk_id := "c0", index_type := "vector_embedding"
                  model_signature := "demo", data := [0, 0, 0, 0] }] }

/-- The database left behind by a failed `add_chunk` on a disk bound to
the unsupported signature "m_fp16": the rows were committed even though
the call returned an error. -/
def fp16Db : Db :=
  { manifest := [("spec_version", "1.0")]
    chunks := [{ chunk_id := "c1", content := "t", metadata := "\x7b\x7d" }]
    indices := [{ chunk_id := "c1", index_type := "vector_embedding"
                  model_signature := "m_fp16", data := [0, 0, 0, 0] }] }

/-- C1: the §8 scenario diverges from the claim.  On the freshly created
disk the index is the disabled `None` variant (the loader returns `None`
for any empty record set), so `add_chunk` fails with the disabled-index
error after committing the rows, and the subsequent `search` returns no
results instead of the "hello world" chunk. -/
theorem C1_scenario_fails :
    scenarioAdd.1 = Except.error unsupportedIndexError ∧
    (∀ f : HnswSearchFn,
      scenarioAdd.2.search f (QueryVector.F32 [1065353216, 0, 0, 0]) 1 = Except.ok []) ∧
    scenarioAdd.2.db.chunks =
      [{ chunk_id := "chunk-0", content := "hello world", metadata := "\x7b\"a\":1\x7d" }] :=
  ⟨rfl, fun _ => rfl, rfl⟩

/-- C2: a store created (or opened) under the supported signature
"demo-4_fp32" with zero matching IndexRecords does NOT get an empty usable
index: the loader returns the disabled `None` variant, and the first
`add_chunk` under that signature fails instead of succeeding. -/
theorem C2_empty_supported_index_disabled :
    load_index_from_db freshDb "demo-4_fp32" = (SearchIndex.none, []) ∧
    (IdentityDisk.create "demo-4_fp32").index = SearchIndex.none ∧
    ((IdentityDisk.create "demo-4_fp32").add_chunk "c0" "t"
        (QueryVector.F32 [1065353216, 0, 0, 0]) Option.none).1 =
      Except.error unsupportedIndexError :=
  ⟨rfl, rfl, rfl⟩

/-- C3: the representation check of `add_chunk` is the wrong negation of
the loader's dispatch.  A suffix-free signature ("demo"), fp32 by default
for the loader, is rejected with the InvalidInput error before any write;
a "_fp16" signature passes the pre-write check, the rows are committed,
and the call fails only afterwards with the disabled-index error. -/
theorem C3_validation_inverted :
    ((IdentityDisk.create "demo").add_chunk "c0" "t" (QueryVector.F32 [0]) Option.none).1 =
      Except.error invalidInputError ∧
    ((IdentityDisk.create "demo").add_chunk "c0" "t" (QueryVector.F32 [0]) Option.none).2.db.chunks = [] ∧
    (load_index_from_db demoDb "demo").1 = SearchIndex.F32 [(0, [0])] ∧
    ((IdentityDisk.create "m_fp16").add_chunk "c1" "t" (QueryVector.F32 [0]) Option.none).1 =
      Except.error unsupportedIndexError ∧
    ((IdentityDisk.create "m_fp16").add_chunk "c1" "t" (QueryVector.F32 [0]) Option.none).2.db =
      fp16Db :=
  ⟨rfl, rfl, rfl, rfl, rfl⟩

/-- C9: search on a disk whose index is the disabled `None` variant
returns `Ok` with an empty result list, for every query vector, every
`top_k`, and every behaviour of the external ANN traversal. -/
theorem C9_search_disabled_empty (d : IdentityDisk) (f : HnswSearchFn)
    (q : QueryVector) (k : Nat) (h : d.index = SearchIndex.none) :
    d.search f q k = Except.ok [] := by
  cases q with
  | F32 qv => simp [IdentityDisk.search, h]

/-- Witness for C9 at a concrete disabled-index disk. -/
theorem C9_search_disabled_empty_witness :
    (IdentityDisk.create "demo-4_fp32").index = SearchIndex.none ∧
    (IdentityDisk.create "demo-4_fp32").search (fun _ _ _ _ => [{ d_id := 0, distance := 0 }])
      (QueryVector.F32 [1065353216]) 5 = Except.ok [] :=
  ⟨rfl, C9_search_disabled_empty _ _ _ _ rfl⟩

/-! ### C7: the codec round-trip -/

theorem f32_bytes_roundtrip (x : Nat) (hx : x < 4294967296) :
    f32FromLeBytes (x % 256, x / 256 % 256, x / 65536 % 256, x / 16777216 % 256) = x := by
  simp only [f32FromLeBytes]
  omega

theorem encodeF32_length (v : List Nat) : (encodeF32 v).length = 4 * v.length := by
  induction v with
  | nil => rfl
  | cons x xs ih =>
    simp only [encodeF32, List.flatMap_cons, List.length_append] at *
    simp [f32ToLeBytes, ih]
    omega

theorem decodeF32_cons4 (b0 b1 b2 b3 : Nat) (rest : List Nat) :
    decodeF32 (b0 :: b1 :: b2 :: b3 :: rest) =
      f32FromLeBytes (b0, b1, b2, b3) :: decodeF32 rest := rfl

/-- C7: decoding the encoding of any vector of f32 bit patterns yields the
original vector (decode after encode is the identity), and the decoded
element count is the encoded blob's byte length divided by four. -/
theorem C7_codec_roundtrip (v : List Nat) (hv : ∀ x ∈ v, x < 4294967296) :
    decodeF32 (encodeF32 v) = v ∧
    (decodeF32 (encodeF32 v)).length = (encodeF32 v).length / 4 := by
  have hmain : decodeF32 (encodeF32 v) = v := by
    induction v with
    | nil => rfl
    | cons x xs ih =>
      have hx : x < 4294967296 := hv x (List.mem_cons_self x xs)
      have ihh := ih (fun y hy => hv y (List.mem_cons_of_mem x hy))
      have hstep : encodeF32 (x :: xs) =
          x % 256 :: x / 256 % 256 :: x / 65536 % 256 :: x / 16777216 % 256 :: encodeF32 xs := by
        simp [encodeF32, f32ToLeBytes]
      rw [hstep, decodeF32_cons4, f32_bytes_roundtrip x hx, ihh]
  refine ⟨hmain, ?_⟩
  rw [hmain, encodeF32_length]
  omega

/-- Witness for C7 at the concrete vector [1.0f32, 0.0f32] (bit patterns). -/
theorem C7_codec_roundtrip_witness :
    (∀ x ∈ [1065353216, 0], x < 4294967296) ∧
    decodeF32 (encodeF32 [1065353216, 0]) = [1065353216, 0] ∧
    (decodeF32 (encodeF32 [1065353216, 0])).length = (encodeF32 [1065353216, 0]).length / 4 :=
  ⟨by decide, (C7_codec_roundtrip [1065353216, 0] (by decide)).1,
    (C7_codec_roundtrip [1065353216, 0] (by decide)).2⟩

/-! ### C6: update_chunk_metadata -/

theorem update_metadata_map_id (chunks : List ChunkRow) (cid ms : String)
    (h : ∀ r ∈ chunks, r.chunk_id ≠ cid) :
    chunks.map (fun r => if r.chunk_id == cid then { r with metadata := ms } else r)
      = chunks := by
  have hcong : chunks.map (fun r => if r.chunk_id == cid then { r with metadata := ms } else r)
      = chunks.map id := by
    apply List.map_congr_left
    intro r hr
    simp [h r hr]
  simpa using hcong

/-- C6: updating metadata of an unknown chunk_id returns NotFound and
leaves the whole state unchanged; updating a known chunk_id succeeds and
is a point update: every row keeps its chunk_id and content, rows with a
different chunk_id are untouched, and the matching row's metadata becomes
the rendering of the new value.  All state outside the chunks table is
unchanged in both cases. -/
theorem C6_update_chunk_metadata (d : IdentityDisk) (cid : String) (md : Json) :
    ((∀ r ∈ d.db.chunks, r.chunk_id ≠ cid) →
      (d.update_chunk_metadata cid md).1 = Except.error (DiskError.NotFound cid) ∧
      (d.update_chunk_metadata cid md).2 = d) ∧
    ((∃ r ∈ d.db.chunks, r.chunk_id = cid) →
      (d.update_chunk_metadata cid md).1 = Except.ok ()) ∧
    (d.update_chunk_metadata cid md).2.db.indices = d.db.indices ∧
    (d.update_chunk_metadata cid md).2.db.manifest = d.db.manifest ∧
    (d.update_chunk_metadata cid md).2.index = d.index ∧
    (d.update_chunk_metadata cid md).2.id_to_chunk_id = d.id_to_chunk_id ∧
    (d.update_chunk_metadata cid md).2.model_signature = d.model_signature ∧
    (d.update_chunk_metadata cid md).2.db.chunks.length = d.db.chunks.length ∧
    (∀ (i : Nat) (r : ChunkRow), d.db.chunks[i]? = some r →
      ∃ r' : ChunkRow, (d.update_chunk_metadata cid md).2.db.chunks[i]? = some r' ∧
        r'.chunk_id = r.chunk_id ∧ r'.content = r.content ∧
        (r.chunk_id ≠ cid → r' = r) ∧
        (r.chunk_id = cid → r'.metadata = md.render)) := by
  have hsnd : (d.update_chunk_metadata cid md).2.db.chunks = d.db.chunks.map (fun r => if r.chunk_id == cid then { r with metadata := md.render } else r) := rfl
  refine ⟨?_, ?_, rfl, rfl, rfl, rfl, rfl, by rw [hsnd, List.length_map], ?_⟩
  · intro h
    have hcount : d.db.chunks.countP (fun r => r.chunk_id == cid) = 0 := by
      rw [List.countP_eq_zero]
      intro r hr
      simp [h r hr]
    constructor
    · show (if d.db.chunks.countP (fun r => r.chunk_id == cid) = 0 then Except.error (DiskError.NotFound cid) else Except.ok ()) = _
      rw [hcount]
      rfl
    · show ({ d with db := { d.db with chunks := d.db.chunks.map (fun r => if r.chunk_id == cid then { r with metadata := md.render } else r) } } : IdentityDisk) = d
      rw [update_metadata_map_id d.db.chunks cid md.render h]
  · intro hex
    obtain ⟨r, hr, hrid⟩ := hex
    have hcount : d.db.chunks.countP (fun r => r.chunk_id == cid) ≠ 0 := by
      have hpos : 0 < d.db.chunks.countP (fun r => r.chunk_id == cid) :=
        List.countP_pos_iff.mpr ⟨r, hr, by simp [hrid]⟩
      omega
    show (if d.db.chunks.countP (fun r => r.chunk_id == cid) = 0 then Except.error (DiskError.NotFound cid) else Except.ok ()) = _
    rw [if_neg hcount]
  · intro i r hir
    refine ⟨if r.chunk_id == cid then { r with metadata := md.render } else r, ?_, ?_, ?_, ?_, ?_⟩
    · rw [hsnd, List.getElem?_map, hir]
      rfl
    · by_cases hc : r.chunk_id == cid <;> simp [hc]
    · by_cases hc : r.chunk_id == cid <;> simp [hc]
    · intro hne
      simp [hne]
    · intro heq
      simp [heq]

/-- A concrete two-chunk disk for the C6 witness. -/
def w6Disk : IdentityDisk :=
  { db := { manifest := [("spec_version", "1.0")]
            chunks := [{ chunk_id := "c1", content := "one", metadata := "\x7b\x7d" },
                       { chunk_id := "c2", content := "two", metadata := "\x7b\x7d" }]
            indices := [] }
    index := SearchIndex.none
    id_to_chunk_id := []
    model_signature := "demo-4_fp32" }

/-- Witness for C6: a successful point update on a concrete disk. -/
theorem C6_update_chunk_metadata_witness :
    (∃ r ∈ w6Disk.db.chunks, r.chunk_id = "c2") ∧
    (w6Disk.update_chunk_metadata "c2" (Json.num 7)).1 = Except.ok () ∧
    (w6Disk.update_chunk_metadata "c2" (Json.num 7)).2.db.chunks =
      [{ chunk_id := "c1", content := "one", metadata := "\x7b\x7d" },
       { chunk_id := "c2", content := "two", metadata := "7" }] := by
  refine ⟨⟨{ chunk_id := "c2", content := "two", metadata := "\x7b\x7d" }, by decide, rfl⟩, ?_, rfl⟩
  exact (C6_update_chunk_metadata w6Disk "c2" (Json.num 7)).2.1
    ⟨{ chunk_id := "c2", content := "two", metadata := "\x7b\x7d" }, by decide, rfl⟩

/-! ### Order properties of the chunk_id comparison -/

theorem charListLe_total : ∀ (a b : List Char), charListLe a b = true ∨ charListLe b a = true
  | [], _ => Or.inl rfl
  | _ :: _, [] => Or.inr rfl
  | a :: as, b :: bs => by
    simp only [charListLe]
    by_cases h1 : a.toNat < b.toNat
    · left
      rw [if_pos h1]
    · by_cases h2 : b.toNat < a.toNat
      · right
        rw [if_pos h2]
      · rw [if_neg h1, if_neg h2, if_neg h2, if_neg h1]
        exact charListLe_total as bs

theorem charListLe_trans :
    ∀ (a b c : List Char), charListLe a b = true → charListLe b c = true →
      charListLe a c = true
  | [], _, _, _, _ => rfl
  | _ :: _, [], _, hab, _ => by simp [charListLe] at hab
  | _ :: _, _ :: _, [], _, hbc => by simp [charListLe] at hbc
  | a :: as, b :: bs, c :: cs, hab, hbc => by
    simp only [charListLe] at hab hbc ⊢
    rcases Nat.lt_trichotomy a.toNat b.toNat with hav | hav | hav
    · rcases Nat.lt_trichotomy b.toNat c.toNat with hbv | hbv | hbv
      · rw [if_pos (by omega)]
      · rw [if_pos (by omega)]
      · rw [if_neg (by omega), if_pos (by omega)] at hbc
        exact absurd hbc (by simp)
    · rcases Nat.lt_trichotomy b.toNat c.toNat with hbv | hbv | hbv
      · rw [if_pos (by omega)]
      · rw [if_neg (by omega), if_neg (by omega)] at hab
        rw [if_neg (by omega), if_neg (by omega)] at hbc
        rw [if_neg (by omega), if_neg (by omega)]
        exact charListLe_trans as bs cs hab hbc
      · rw [if_neg (by omega), if_pos (by omega)] at hbc
        exact absurd hbc (by simp)
    · rw [if_neg (by omega), if_pos (by omega)] at hab
      exact absurd hab (by simp)

instance : IsTotal IndexRecord chunkIdLe :=
  ⟨fun a b => charListLe_total a.chunk_id.data b.chunk_id.data⟩

instance : IsTrans IndexRecord chunkIdLe :=
  ⟨fun a b c => charListLe_trans a.chunk_id.data b.chunk_id.data c.chunk_id.data⟩

/-! ### C8: the index loader -/

/-- C8: for a supported (fp32-family) signature with at least one matching
record, the loader scans exactly the IndexRecords whose model_signature
equals the bound signature (a permutation of that filter), in ascending
byte-wise chunk_id order; the graph is built by inserting the decoded blob
of scan position i at dense id i, and the id list holds the chunk_ids in
the same order. -/
theorem C8_loader_builds_sorted_index (db : Db) (sig : String)
    (hsig : (strEndsWith sig "_fp32" || !(strContains sig '_')) = true)
    (hne : indicesForSignature db sig ≠ []) :
    (indicesForSignature db sig).Perm
      (db.indices.filter (fun r => r.model_signature == sig)) ∧
    List.Sorted chunkIdLe (indicesForSignature db sig) ∧
    (∀ r ∈ indicesForSignature db sig, r.model_signature = sig) ∧
    load_index_from_db db sig =
      (SearchIndex.F32 (((indicesForSignature db sig).map (fun r => r.data)).map decodeF32).enum,
        (indicesForSignature db sig).map (fun r => r.chunk_id)) ∧
    (∀ (i : Nat) (r : IndexRecord), (indicesForSignature db sig)[i]? = some r →
      ((((indicesForSignature db sig).map (fun r => r.data)).map decodeF32).enum)[i]? =
        some (i, decodeF32 r.data)) := by
  refine ⟨List.perm_insertionSort _ _, List.sorted_insertionSort _ _, ?_, ?_, ?_⟩
  · intro r hr
    have hmem : r ∈ db.indices.filter (fun r => r.model_signature == sig) :=
      ((List.perm_insertionSort chunkIdLe _).mem_iff).mp hr
    have hp := (List.mem_filter.mp hmem).2
    exact eq_of_beq hp
  · have hmape : ((indicesForSignature db sig).map (fun r => r.chunk_id)).isEmpty = false := by
      cases hx : indicesForSignature db sig with
      | nil => exact absurd hx hne
      | cons r rs => rw [List.map_cons, List.isEmpty_cons]
    show load_index_from_db db sig = _
    unfold load_index_from_db
    simp only [hmape, Bool.false_eq_true, if_false, hsig, if_true]
  · intro i r hir
    rw [List.getElem?_enum, List.getElem?_map, List.getElem?_map, hir]
    rfl

/-- A concrete database for the C8 witness: two fp32 records whose
chunk_ids are out of insertion order, plus a record of another signature
that must be filtered out.  The blob [2,0,0,0] decodes to the single bit
pattern 2, and [1,0,0,0] to 1. -/
def twoDb : Db :=
  { manifest := [("spec_version", "1.0")]
    chunks := [{ chunk_id := "b", content := "B", metadata := "\x7b\x7d" },
               { chunk_id := "a", content := "A", metadata := "\x7b\x7d" }]
    indices := [{ chunk_id := "b", index_type := "vector_embedding"
                  model_signature := "demo-4_fp32", data := [1, 0, 0, 0] },
                { chunk_id := "x", index_type := "vector_embedding"
                  model_signature := "other_fp16", data := [9] },
                { chunk_id := "a", index_type := "vector_embedding"
                  model_signature := "demo-4_fp32", data := [2, 0, 0, 0] }] }

/-- Witness for C8 on `twoDb`: the records of the bound signature are
loaded in chunk_id order "a" before "b", the foreign-signature record is
dropped, and the graph pairs dense ids 0 and 1 with the decoded vectors. -/
theorem C8_loader_builds_sorted_index_witness :
    indicesForSignature twoDb "demo-4_fp32" ≠ [] ∧
    (indicesForSignature twoDb "demo-4_fp32").Perm
      (twoDb.indices.filter (fun r => r.model_signature == "demo-4_fp32")) ∧
    List.Sorted chunkIdLe (indicesForSignature twoDb "demo-4_fp32") ∧
    load_index_from_db twoDb "demo-4_fp32" =
      (SearchIndex.F32 [(0, [2]), (1, [1])], ["a", "b"]) := by
  have h := C8_loader_builds_sorted_index twoDb "demo-4_fp32" (by decide) (by decide)
  exact ⟨by decide, h.1, h.2.1, rfl⟩

/-! ### Characterization of add_chunk when the pre-write checks pass -/

/-- When the representation check passes (the signature ends in "_fp32" or
contains an underscore, per the code's inverted test) and the chunk id is
fresh, `add_chunk` commits both rows and then either extends the resident
F32 graph (success) or fails with the disabled-index error while keeping
the committed rows. -/
theorem add_chunk_spec (d : IdentityDisk) (chunkId content : String) (v : List Nat)
    (metadata : Option Json)
    (hval : (strEndsWith d.model_signature "_fp32" || strContains d.model_signature '_') = true)
    (hfc : ∀ r ∈ d.db.chunks, r.chunk_id ≠ chunkId)
    (hfi : ∀ r ∈ d.db.indices, ¬(r.chunk_id = chunkId ∧ r.model_signature = d.model_signature)) :
    d.add_chunk chunkId content (QueryVector.F32 v) metadata =
      ((match d.index with
        | SearchIndex.F32 _ => Except.ok chunkId
        | SearchIndex.none => Except.error unsupportedIndexError),
       { db := { d.db with
                 chunks := d.db.chunks ++
                   [{ chunk_id := chunkId, content := content, metadata := metadataString metadata }]
                 indices := d.db.indices ++
                   [{ chunk_id := chunkId, index_type := "vector_embedding"
                      model_signature := d.model_signature, data := encodeF32 v }] }
         index := (match d.index with
                   | SearchIndex.F32 entries =>
                     SearchIndex.F32 (entries ++ [(d.id_to_chunk_id.length, v)])
                   | SearchIndex.none => SearchIndex.none)
         id_to_chunk_id := (match d.index with
                   | SearchIndex.F32 _ => d.id_to_chunk_id ++ [chunkId]
                   | SearchIndex.none => d.id_to_chunk_id)
         model_signature := d.model_signature }) := by
  have hcond : (!(strEndsWith d.model_signature "_fp32") &&
      !(strContains d.model_signature '_')) = false := by
    rw [← Bool.not_or, hval]
    rfl
  have hany1 : d.db.chunks.any (fun r => r.chunk_id == chunkId) = false := by
    rw [List.any_eq_false]
    intro r hr
    simp [hfc r hr]
  have hany2 : d.db.indices.any
      (fun r => r.chunk_id == chunkId && r.model_signature == d.model_signature) = false := by
    rw [List.any_eq_false]
    intro r hr hcontra
    rw [Bool.and_eq_true, beq_iff_eq, beq_iff_eq] at hcontra
    exact hfi r hr hcontra
  simp only [IdentityDisk.add_chunk]
  rw [if_neg (by simp [hcond]), if_neg (by simp [hany1]), if_neg (by simp [hany2])]
  cases d.index <;> rfl

/-- C4: on a disk bound to an unrecognized-encoding signature (the disabled
index state), `add_chunk` fails with the unsupported-index error kind, yet
the Chunk row and the IndexRecord row are already durably committed and the
new chunk appears in a subsequent `get_chunks` result. -/
theorem C4_disabled_index_add (d : IdentityDisk) (chunkId content : String) (v : List Nat)
    (metadata : Option Json)
    (_hup1 : strEndsWith d.model_signature "_fp32" = false)
    (hup2 : strContains d.model_signature '_' = true)
    (hidx : d.index = SearchIndex.none)
    (hfc : ∀ r ∈ d.db.chunks, r.chunk_id ≠ chunkId)
    (hfi : ∀ r ∈ d.db.indices, ¬(r.chunk_id = chunkId ∧ r.model_signature = d.model_signature)) :
    (d.add_chunk chunkId content (QueryVector.F32 v) metadata).1 =
      Except.error unsupportedIndexError ∧
    (d.add_chunk chunkId content (QueryVector.F32 v) metadata).2.db.chunks =
      d.db.chunks ++
        [{ chunk_id := chunkId, content := content, metadata := metadataString metadata }] ∧
    (d.add_chunk chunkId content (QueryVector.F32 v) metadata).2.db.indices =
      d.db.indices ++
        [{ chunk_id := chunkId, index_type := "vector_embedding"
           model_signature := d.model_signature, data := encodeF32 v }] ∧
    (d.add_chunk chunkId content (QueryVector.F32 v) metadata).2.get_chunks =
      Except.ok ((d.add_chunk chunkId content (QueryVector.F32 v) metadata).2.db.chunks.map Chunk.ofRow) ∧
    Chunk.ofRow { chunk_id := chunkId, content := content, metadata := metadataString metadata } ∈
      (d.add_chunk chunkId content (QueryVector.F32 v) metadata).2.db.chunks.map Chunk.ofRow := by
  have hval : (strEndsWith d.model_signature "_fp32" || strContains d.model_signature '_') = true := by
    rw [hup2, Bool.or_true]
  have h := add_chunk_spec d chunkId content v metadata hval hfc hfi
  rw [h, hidx]
  refine ⟨rfl, rfl, rfl, rfl, ?_⟩
  exact List.mem_map_of_mem Chunk.ofRow
    (List.mem_append_right _ (List.mem_singleton.mpr rfl))

/-- A concrete fp16-bound disabled-index disk for the C4 witness. -/
def w4Disk : IdentityDisk :=
  { db := freshDb
    index := SearchIndex.none
    id_to_chunk_id := []
    model_signature := "m_fp16" }

/-- Witness for C4: on the concrete disabled disk the call errors while
the rows land in the database and in `get_chunks`. -/
theorem C4_disabled_index_add_witness :
    strEndsWith "m_fp16" "_fp32" = false ∧
    strContains "m_fp16" '_' = true ∧
    w4Disk.index = SearchIndex.none ∧
    (w4Disk.add_chunk "c1" "t" (QueryVector.F32 [0]) Option.none).1 =
      Except.error unsupportedIndexError ∧
    Chunk.ofRow { chunk_id := "c1", content := "t", metadata := "\x7b\x7d" } ∈
      (w4Disk.add_chunk "c1" "t" (QueryVector.F32 [0]) Option.none).2.db.chunks.map Chunk.ofRow := by
  have h := C4_disabled_index_add w4Disk "c1" "t" [0] Option.none (by decide) (by decide) rfl
    (by intro r hr; cases hr) (by intro r hr; cases hr)
  exact ⟨by decide, by decide, rfl, h.1, h.2.2.2.2⟩

/-! ### C10: default metadata -/

/-- Provenance of search results: every result produced by the lookup loop
is the row conversion of some row of the chunks table. -/
theorem lookupResults_mem (db : Db) (id_map : List String) :
    ∀ (ns : List Neighbour) (rs : List SearchResult),
      lookupResults db id_map ns = Except.ok rs →
      ∀ res ∈ rs, ∃ row ∈ db.chunks, res.chunk = Chunk.ofRow row
  | [], rs, h, res, hres => by
    simp only [lookupResults] at h
    cases h
    cases hres
  | n :: rest, rs, h, res, hres => by
    simp only [lookupResults] at h
    cases hm : id_map.get? n.d_id with
    | none => rw [hm] at h; simp only [reduceCtorEq] at h
    | some cid =>
      rw [hm] at h
      dsimp only at h
      cases hf : db.chunks.find? (fun r => r.chunk_id == cid) with
      | none => rw [hf] at h; simp only [reduceCtorEq] at h
      | some row =>
        rw [hf] at h
        dsimp only at h
        cases hrec : lookupResults db id_map rest with
        | error e => rw [hrec] at h; simp only [Except.map, reduceCtorEq] at h
        | ok rs' =>
          rw [hrec] at h
          have hcons : ({ chunk := Chunk.ofRow row, distance := n.distance } :: rs' : List SearchResult) = rs := by
            cases h
            rfl
          rw [← hcons] at hres
          rcases List.mem_cons.mp hres with hres1 | hres2
          · exact ⟨row, List.mem_of_find?_eq_some hf, by rw [hres1]⟩
          · exact lookupResults_mem db id_map rest rs' hrec res hres2

/-- C10: a call to `add_chunk` with `metadata = None` persists the chunk
with the empty-object metadata text, that text parses to the empty JSON
object, and every chunk the public interface later derives for that
chunk_id — through `get_chunks` or through `search` — carries the empty
JSON object as its metadata (never a null or absent value). -/
theorem C10_default_metadata (d : IdentityDisk) (chunkId content : String) (v : List Nat)
    (hval : (strEndsWith d.model_signature "_fp32" || strContains d.model_signature '_') = true)
    (hfc : ∀ r ∈ d.db.chunks, r.chunk_id ≠ chunkId)
    (hfi : ∀ r ∈ d.db.indices, ¬(r.chunk_id = chunkId ∧ r.model_signature = d.model_signature)) :
    (d.add_chunk chunkId content (QueryVector.F32 v) Option.none).2.db.chunks =
      d.db.chunks ++ [{ chunk_id := chunkId, content := content, metadata := "\x7b\x7d" }] ∧
    Json.parse "\x7b\x7d" = some (Json.obj []) ∧
    (∀ cs, (d.add_chunk chunkId content (QueryVector.F32 v) Option.none).2.get_chunks = Except.ok cs →
      ∀ c ∈ cs, c.chunk_id = chunkId → c.metadata = Json.obj []) ∧
    (∀ (f : HnswSearchFn) (q : QueryVector) (k : Nat) (rs : List SearchResult),
      (d.add_chunk chunkId content (QueryVector.F32 v) Option.none).2.search f q k = Except.ok rs →
      ∀ res ∈ rs, res.chunk.chunk_id = chunkId → res.chunk.metadata = Json.obj []) := by
  have h := add_chunk_spec d chunkId content v Option.none hval hfc hfi
  have hchunks : (d.add_chunk chunkId content (QueryVector.F32 v) Option.none).2.db.chunks =
      d.db.chunks ++ [{ chunk_id := chunkId, content := content, metadata := "\x7b\x7d" }] := by
    rw [h]
    rfl
  have hrowmeta : ∀ r ∈ (d.add_chunk chunkId content (QueryVector.F32 v) Option.none).2.db.chunks,
      r.chunk_id = chunkId → r.metadata = "\x7b\x7d" := by
    intro r hr hrid
    rw [hchunks] at hr
    rcases List.mem_append.mp hr with hold | hnew
    · exact absurd hrid (hfc r hold)
    · rw [List.mem_singleton.mp hnew]
  refine ⟨hchunks, rfl, ?_, ?_⟩
  · intro cs hcs c hc hcid
    have hcs' : cs = (d.add_chunk chunkId content (QueryVector.F32 v) Option.none).2.db.chunks.map Chunk.ofRow := by
      have : Except.ok ((d.add_chunk chunkId content (QueryVector.F32 v) Option.none).2.db.chunks.map Chunk.ofRow) =
          (Except.ok cs : Except DiskError (List Chunk)) := hcs
      cases this
      rfl
    rw [hcs'] at hc
    obtain ⟨r, hr, hconv⟩ := List.mem_map.mp hc
    have hrid : r.chunk_id = chunkId := by
      rw [← hconv] at hcid
      exact hcid
    have hmeta := hrowmeta r hr hrid
    rw [← hconv]
    show (Json.parse r.metadata).getD (Json.obj []) = Json.obj []
    rw [hmeta]
    rfl
  · intro f q k rs hrs res hres hid
    cases hq : q with
    | F32 qv =>
      rw [hq] at hrs
      cases hidx2 : (d.add_chunk chunkId content (QueryVector.F32 v) Option.none).2.index with
      | F32 entries2 =>
        have hlu : lookupResults (d.add_chunk chunkId content (QueryVector.F32 v) Option.none).2.db
            (d.add_chunk chunkId content (QueryVector.F32 v) Option.none).2.id_to_chunk_id
            (f entries2 qv k 100) = Except.ok rs := by
          rw [← hrs]
          show _ = IdentityDisk.search _ f (QueryVector.F32 qv) k
          simp only [IdentityDisk.search, hidx2]
        obtain ⟨row, hrow, hconv⟩ :=
          lookupResults_mem _ _ (f entries2 qv k 100) rs hlu res hres
        have hrid : row.chunk_id = chunkId := by
          rw [hconv] at hid
          exact hid
        have hmeta := hrowmeta row hrow hrid
        rw [hconv]
        show (Json.parse row.metadata).getD (Json.obj []) = Json.obj []
        rw [hmeta]
        rfl
      | none =>
        have hempty : (d.add_chunk chunkId content (QueryVector.F32 v) Option.none).2.search f
            (QueryVector.F32 qv) k = Except.ok [] := by
          simp [IdentityDisk.search, hidx2]
        rw [hempty] at hrs
        have hrs' : ([] : List SearchResult) = rs := by
          cases hrs
          rfl
        rw [← hrs'] at hres
        cases hres

/-- Witness for C10: a concrete add with `metadata = None` on an fp16-bound
disk (the pre-write check passes, the row is committed with the empty
metadata object). -/
theorem C10_default_metadata_witness :
    (strEndsWith "m_fp16" "_fp32" || strContains "m_fp16" '_') = true ∧
    (w4Disk.add_chunk "c1" "t" (QueryVector.F32 [0]) Option.none).2.db.chunks =
      [{ chunk_id := "c1", content := "t", metadata := "\x7b\x7d" }] ∧
    Json.parse "\x7b\x7d" = some (Json.obj []) := by
  have h := C10_default_metadata w4Disk "c1" "t" [0] (by decide)
    (by intro r hr; cases hr) (by intro r hr; cases hr)
  exact ⟨by decide, by rw [h.1]; rfl, h.2.1⟩

/-! ### C5: the dense-id invariant -/

/-- The invariant stated by the claim: id-list length equals graph-entry
count equals the number of IndexRecords of the bound signature, and the
graph entry at position i carries dense id i. -/
def indexInvariant (sig : String) (d : IdentityDisk) : Prop :=
  d.id_to_chunk_id.length = d.index.graphEntries.length ∧
  d.id_to_chunk_id.length =
    (d.db.indices.filter (fun r => r.model_signature == sig)).length ∧
  (∀ (i : Nat) (p : Nat × List Nat), d.index.graphEntries[i]? = some p → p.1 = i)

/-- The loader establishes the invariant for any supported signature. -/
theorem load_invariant (db : Db) (sig : String)
    (hsig : (strEndsWith sig "_fp32" || !(strContains sig '_')) = true) :
    indexInvariant sig (IdentityDisk.openDisk db sig) := by
  have hperm : (indicesForSignature db sig).Perm
      (db.indices.filter (fun r => r.model_signature == sig)) :=
    List.perm_insertionSort chunkIdLe
      (db.indices.filter (fun r => r.model_signature == sig))
  cases hx : indicesForSignature db sig with
  | nil =>
    have hload : load_index_from_db db sig = (SearchIndex.none, []) := by
      unfold load_index_from_db
      rw [hx]
      rfl
    have hfl : (db.indices.filter (fun r => r.model_signature == sig)).length = 0 := by
      have hlen := hperm.length_eq
      rw [hx] at hlen
      simpa using hlen.symm
    refine ⟨?_, ?_, ?_⟩
    · show (load_index_from_db db sig).2.length = (load_index_from_db db sig).1.graphEntries.length
      rw [hload]
      rfl
    · show (load_index_from_db db sig).2.length =
        (db.indices.filter (fun r => r.model_signature == sig)).length
      rw [hload, hfl]
      rfl
    · intro i p hp
      rw [show (IdentityDisk.openDisk db sig).index = (load_index_from_db db sig).1 from rfl, hload] at hp
      simp [SearchIndex.graphEntries] at hp
  | cons r rs =>
    have hload : load_index_from_db db sig =
        (SearchIndex.F32 (((r :: rs).map (fun t => t.data)).map decodeF32).enum,
          (r :: rs).map (fun t => t.chunk_id)) := by
      unfold load_index_from_db
      rw [hx]
      simp only [List.map_cons, List.isEmpty_cons, Bool.false_eq_true, if_false, hsig, if_true]
    have hlen := hperm.length_eq
    rw [hx] at hlen
    refine ⟨?_, ?_, ?_⟩
    · show (load_index_from_db db sig).2.length = (load_index_from_db db sig).1.graphEntries.length
      rw [hload]
      simp [SearchIndex.graphEntries]
    · show (load_index_from_db db sig).2.length =
        (db.indices.filter (fun r => r.model_signature == sig)).length
      rw [hload, ← hlen]
      simp
    · intro i p hp
      rw [show (IdentityDisk.openDisk db sig).index = (load_index_from_db db sig).1 from rfl, hload] at hp
      simp only [SearchIndex.graphEntries, List.getElem?_enum] at hp
      cases hX : (((r :: rs).map (fun t => t.data)).map decodeF32)[i]? with
      | none => rw [hX] at hp; simp at hp
      | some x =>
        rw [hX] at hp
        dsimp only [Option.map] at hp
        injection hp with hp'
        rw [← hp']

/-- The bound signature never changes across `add_chunk`. -/
theorem add_chunk_sig_preserved (d : IdentityDisk) (chunkId content : String)
    (embedding : QueryVector) (metadata : Option Json) :
    (d.add_chunk chunkId content embedding metadata).2.model_signature = d.model_signature := by
  cases embedding with
  | F32 v =>
    simp only [IdentityDisk.add_chunk]
    split
    · rfl
    · split
      · rfl
      · split
        · rfl
        · cases d.index <;> rfl

/-- Disk states reachable by the facade for a fixed bound signature: a
create, an open of an arbitrary persisted database, or a successful
`add_chunk` on a reachable state. -/
inductive Reachable (sig : String) : IdentityDisk → Prop where
  | created : Reachable sig (IdentityDisk.create sig)
  | loaded (db : Db) : Reachable sig (IdentityDisk.openDisk db sig)
  | added (d : IdentityDisk) (chunkId content : String) (v : List Nat)
      (metadata : Option Json) (cid : String) (hd : Reachable sig d)
      (hok : (d.add_chunk chunkId content (QueryVector.F32 v) metadata).1 = Except.ok cid) :
      Reachable sig ((d.add_chunk chunkId content (QueryVector.F32 v) metadata).2)

theorem Reachable.signature {sig : String} {d : IdentityDisk}
    (h : Reachable sig d) : d.model_signature = sig := by
  induction h with
  | created => rfl
  | loaded db => rfl
  | added d chunkId content v metadata cid hd hok ih =>
    rw [add_chunk_sig_preserved]
    exact ih

/-- C5 (amended): for a bound signature whose encoding is supported (the
fp32 family), every reachable state — an index load from any persisted
database followed by any number of successful `add_chunk` calls — satisfies
the invariant: id-list length = graph-entry count = number of IndexRecords
of the bound signature, and the graph entry at position i has dense id i. -/
theorem C5_index_invariant (sig : String) (d : IdentityDisk)
    (hsig : (strEndsWith sig "_fp32" || !(strContains sig '_')) = true)
    (hreach : Reachable sig d) : indexInvariant sig d := by
  induction hreach with
  | created =>
    refine ⟨rfl, rfl, ?_⟩
    intro i p hp
    have hemp : (IdentityDisk.create sig).index.graphEntries = [] := rfl
    rw [hemp] at hp
    simp at hp
  | loaded db => exact load_invariant db sig hsig
  | added d chunkId content v metadata cid hd hok ih =>
    obtain ⟨ih1, ih2, ih3⟩ := ih
    have hsigd : d.model_signature = sig := hd.signature
    revert hok
    simp only [IdentityDisk.add_chunk]
    split
    · intro hok
      exact absurd hok (by simp)
    · split
      · intro hok
        exact absurd hok (by simp)
      · split
        · intro hok
          exact absurd hok (by simp)
        · cases hidx : d.index with
          | F32 entries =>
            intro _
            rw [hidx] at ih1 ih3
            simp only [SearchIndex.graphEntries] at ih1 ih3
            refine ⟨?_, ?_, ?_⟩
            · show (d.id_to_chunk_id ++ [chunkId]).length =
                (entries ++ [(d.id_to_chunk_id.length, v)]).length
              simp only [List.length_append, List.length_cons, List.length_nil]
              omega
            · show (d.id_to_chunk_id ++ [chunkId]).length = (List.filter _ (d.db.indices ++ _)).length
              rw [List.filter_append]
              have hrec : (List.filter (fun r => r.model_signature == sig)
                  [({ chunk_id := chunkId, index_type := "vector_embedding"
                      model_signature := d.model_signature, data := encodeF32 v } : IndexRecord)]) =
                  [{ chunk_id := chunkId, index_type := "vector_embedding"
                     model_signature := d.model_signature, data := encodeF32 v }] := by
                rw [List.filter_cons]
                simp [hsigd]
              rw [hrec]
              simp only [List.length_append, List.length_cons, List.length_nil]
              rw [ih2]
            · intro i p hp
              have hp' : (entries ++ [(d.id_to_chunk_id.length, v)])[i]? = some p := hp
              rcases Nat.lt_trichotomy i entries.length with hi | hi | hi
              · rw [List.getElem?_append_left hi] at hp'
                exact ih3 i p hp'
              · rw [hi, List.getElem?_concat_length] at hp'
                injection hp' with hp''
                rw [← hp'']
                show d.id_to_chunk_id.length = i
                omega
              · have hlen2 : (entries ++ [(d.id_to_chunk_id.length, v)]).length ≤ i := by
                  simp only [List.length_append, List.length_cons, List.length_nil]
                  omega
                rw [List.getElem?_eq_none hlen2] at hp'
                cases hp'
          | none =>
            intro hok
            exact absurd hok (by simp)

/-- Witness for C5: the amended invariant at a concrete reachable state
(an open of `twoDb` under the supported signature "demo-4_fp32"). -/
theorem C5_index_invariant_witness :
    (strEndsWith "demo-4_fp32" "_fp32" || !(strContains "demo-4_fp32" '_')) = true ∧
    indexInvariant "demo-4_fp32" (IdentityDisk.openDisk twoDb "demo-4_fp32") :=
  ⟨by decide,
    C5_index_invariant "demo-4_fp32" (IdentityDisk.openDisk twoDb "demo-4_fp32")
      (by decide) (Reachable.loaded twoDb)⟩

/-- Counterexample for C5 as stated: opening `fp16Db` (the database a
failed `add_chunk` on an "m_fp16"-bound disk really leaves behind) under
"m_fp16" populates the id list with one entry while the disabled index
holds no graph entries, so the claimed equality fails. -/
theorem C5_counterexample :
    ((IdentityDisk.create "m_fp16").add_chunk "c1" "t" (QueryVector.F32 [0]) Option.none).2.db = fp16Db ∧
    (IdentityDisk.openDisk fp16Db "m_fp16").id_to_chunk_id.length = 1 ∧
    (IdentityDisk.openDisk fp16Db "m_fp16").index.graphEntries.length = 0 ∧
    ((IdentityDisk.openDisk fp16Db "m_fp16").db.indices.filter
      (fun r => r.model_signature == "m_fp16")).length = 1 ∧
    ¬ ((IdentityDisk.openDisk fp16Db "m_fp16").id_to_chunk_id.length =
        (IdentityDisk.openDisk fp16Db "m_fp16").index.graphEntries.length) :=
  ⟨rfl, rfl, rfl, rfl, by decide⟩

end Idz
